import Mathlib

/-!
# Verification of the weather-data pipeline core

Shallow embedding of the pipeline's merge, validation, persistence and
load operations (from `weather_data_collector/scripts/main.py`,
`weather_data_collector/utils.py` and `database/loader/load_data.py`),
together with proofs of the specified properties.

Conventions of the embedding:
* a pandas `DataFrame` of weather records is a `List Rec`, one element
  per row, with the fixed column schema produced by the API client
  (`date`, the nine daily variables, `location`);
* a date column cell is a `DateCell`: either a raw string as loaded
  from JSON, or an already parsed datetime represented by an ordinal
  that orders chronologically; `pd.to_datetime` over a column is
  `parseBatchDates` (it fails — raises — when any cell fails to parse,
  and is the identity on already-parsed cells);
* numeric cells are `Option ℚ` (`none` is a missing value / NaN;
  arithmetic on percentages is exact rational arithmetic);
* `sort_values` is a stable sort (`List.insertionSort`), matching
  pandas' stable lexsort on column lists;
* the Python functions' in-place mutation of their argument frames is
  made explicit: the embedded functions return the post-call state of
  the mutated arguments alongside their return value;
* the relational store is a list of committed rows; `INSERT ... ON
  CONFLICT (location_id, date, data_type) DO NOTHING` appends a row
  only when no row with the same natural key exists.
-/

namespace Weather

/-- A cell of the `date` column: either a raw string (as deserialized from
JSON) or a parsed datetime, represented by its ordinal. -/
inductive DateCell
  | str (s : String)
  | dt (d : Nat)
deriving DecidableEq

/-- Numeric value of a digit string; `none` if empty or non-digits. -/
def digitsVal (cs : List Char) : Option Nat :=
  if cs = [] then none
  else cs.foldl
    (fun acc c =>
      match acc with
      | none => none
      | some n => if c.isDigit then some (n * 10 + (c.toNat - 48)) else none)
    (some 0)

/-- Split a character list into the groups separated by `'-'`. -/
def splitOnDash : List Char → List (List Char)
  | [] => [[]]
  | c :: cs =>
    if c = '-' then [] :: splitOnDash cs
    else
      match splitOnDash cs with
      | [] => [[c]]
      | g :: gs => (c :: g) :: gs

/-- Ordinal encoding of a calendar date; since the month is below 16 and
the day below 32, the numeric order is the lexicographic (hence the
chronological) order. -/
def dateOrdinal (y m d : Nat) : Nat := y * 512 + m * 32 + d

/-- Model of `pd.to_datetime` on a single string cell, for the ISO
`YYYY-MM-DD` dates this pipeline produces (`date_format="iso"`, daily
resolution): parse or fail. -/
def parseDate (s : String) : Option Nat :=
  match splitOnDash s.data with
  | [ys, ms, ds] =>
    match digitsVal ys, digitsVal ms, digitsVal ds with
    | some y, some m, some d =>
      if 1 ≤ m ∧ m ≤ 12 ∧ 1 ≤ d ∧ d ≤ 31 then some (dateOrdinal y m d)
      else none
    | _, _, _ => none
  | _ => none

/-- Model of `pd.to_datetime` on one cell: a parsed datetime passes
through. -/
def toDatetimeCell : DateCell → Option Nat
  | .str s => parseDate s
  | .dt d => some d

/-- One weather record (one row of the collector's DataFrame): the
`date` column, the nine daily variables in the order of
`WeatherConfig.DAILY_VARIABLES`, and the `location` column added by
`_process_response`. -/
structure Rec where
  date : DateCell
  weather_code : Option ℚ
  temperature_2m_max : Option ℚ
  temperature_2m_min : Option ℚ
  daylight_duration : Option ℚ
  precipitation_sum : Option ℚ
  shortwave_radiation_sum : Option ℚ
  et0_fao_evapotranspiration : Option ℚ
  soil_moisture_0_to_100cm_mean : Option ℚ
  vapour_pressure_deficit_max : Option ℚ
  location : String
deriving DecidableEq

/-- The column labels of the collector's DataFrame, in order. -/
def columns : List String :=
  ["date", "weather_code", "temperature_2m_max", "temperature_2m_min",
   "daylight_duration", "precipitation_sum", "shortwave_radiation_sum",
   "et0_fao_evapotranspiration", "soil_moisture_0_to_100cm_mean",
   "vapour_pressure_deficit_max", "location"]

/-- The statement `df['date'] = pd.to_datetime(df['date'])` over a
whole batch: the
new column is computed first; if any cell fails the statement raises and
the assignment does not happen (`none`). -/
def parseBatchDates : List Rec → Option (List Rec)
  | [] => some []
  | r :: rs =>
    match toDatetimeCell r.date, parseBatchDates rs with
    | some d, some rs2 => some ({ r with date := .dt d } :: rs2)
    | _, _ => none

/-- The datetime ordinal of a record whose date cell is parsed
(arbitrary on raw cells, which the sorting paths never see). -/
def dateKey (r : Rec) : Nat :=
  match r.date with
  | .dt d => d
  | .str _ => 0

/-- The deduplication key of `drop_duplicates(subset=['date', 'location'])`. -/
def mergeKey (r : Rec) : Nat × String := (dateKey r, r.location)

/-- Code-point lexicographic string comparison, the order Python and
pandas use on the `location` column. -/
def charListLe : List Char → List Char → Bool
  | [], _ => true
  | _ :: _, [] => false
  | a :: as, b :: bs =>
    if a < b then true else if b < a then false else charListLe as bs

/-- The location order used by `sort_values`. -/
def locLe (s t : String) : Prop := charListLe s.data t.data = true

instance : DecidableRel locLe := fun s t => by
  unfold locLe; infer_instance

/-- Row order of `sort_values(['date', 'location'])`: lexicographic on
(date, location). -/
def dlLe (a b : Rec) : Prop :=
  dateKey a < dateKey b ∨ (dateKey a = dateKey b ∧ locLe a.location b.location)

instance : DecidableRel dlLe := fun a b => by
  unfold dlLe; infer_instance

/-- Row order of the final `sort_values('date')`. -/
def dLe (a b : Rec) : Prop := dateKey a ≤ dateKey b

instance : DecidableRel dLe := fun a b => by
  unfold dLe; infer_instance


/-- Model of `drop_duplicates(subset=['date', 'location'],
keep='last')`: a row
survives exactly when no later row has the same key; surviving rows keep
their relative order. -/
def dropDupKeepLast : List Rec → List Rec
  | [] => []
  | a :: t =>
    if t.any (fun b => mergeKey b = mergeKey a) then dropDupKeepLast t
    else a :: dropDupKeepLast t

/-- Model of `WeatherDataPipeline.merge_datasets` (main.py). Returns
the merge
result together with the post-call states of the two argument frames
(whose `date` columns the function reassigns in place). On an empty
input, or when a date conversion raises, the except-branch returns
`None`. -/
def merge_datasets (H F : List Rec) :
    Option (List Rec) × List Rec × List Rec :=
  if H.isEmpty ∨ F.isEmpty then (none, H, F)
  else
    match parseBatchDates H with
    | none => (none, H, F)
    | some H2 =>
      match parseBatchDates F with
      | none => (none, H2, F)
      | some F2 =>
        let combined := H2 ++ F2
        let s1 := List.insertionSort dlLe combined
        let dd := dropDupKeepLast s1
        let s2 := List.insertionSort dLe dd
        (some s2, H2, F2)

/-! ## Quality validator (`DataUtils.validate_data_quality`, utils.py) -/

/-- The `status` field of a quality report. -/
inductive VStatus
  | ok
  | warning
  | error
deriving DecidableEq

/-- An entry of `data_issues`, as structured data (the Python code
renders each as a formatted string). -/
inductive Issue
  | dateError
  | missingData (col : String) (pct : ℚ)
  | tempRange (col : String)
deriving DecidableEq

/-- The quality report dictionary. The empty-batch error result carries
only `status` and `message` in the source; here the remaining fields are
at their neutral values. -/
structure QualityReport where
  location : String
  total_records : Nat
  date_range : Option (Nat × Nat)
  missing_data : List (String × Nat × ℚ)
  data_issues : List Issue
  status : VStatus
  message : Option String
deriving DecidableEq

/-- Model of `df[col].isnull()` on one row, per column label; the
`date` and
`location` columns of the collected frames carry no nulls. -/
def isNullIn (c : String) (r : Rec) : Bool :=
  if c = "weather_code" then r.weather_code.isNone
  else if c = "temperature_2m_max" then r.temperature_2m_max.isNone
  else if c = "temperature_2m_min" then r.temperature_2m_min.isNone
  else if c = "daylight_duration" then r.daylight_duration.isNone
  else if c = "precipitation_sum" then r.precipitation_sum.isNone
  else if c = "shortwave_radiation_sum" then r.shortwave_radiation_sum.isNone
  else if c = "et0_fao_evapotranspiration" then r.et0_fao_evapotranspiration.isNone
  else if c = "soil_moisture_0_to_100cm_mean" then r.soil_moisture_0_to_100cm_mean.isNone
  else if c = "vapour_pressure_deficit_max" then r.vapour_pressure_deficit_max.isNone
  else false

/-- Model of `df[col].isnull().sum()`. -/
def nullCount (c : String) (df : List Rec) : Nat :=
  (df.filter (isNullIn c)).length

/-- The dropna'd values of one of the two temperature columns. -/
def tempValues (c : String) (df : List Rec) : List ℚ :=
  if c = "temperature_2m_max" then df.filterMap (fun r => r.temperature_2m_max)
  else if c = "temperature_2m_min" then df.filterMap (fun r => r.temperature_2m_min)
  else []

/-- The two temperature columns checked for range violations. -/
def temp_cols : List String := ["temperature_2m_max", "temperature_2m_min"]

/-- The `try` block over the `date` column: on success the date range
and the converted frame, on an exception the date issue and the frame
untouched (the conversion raises before the in-place assignment). -/
def dateStep (df : List Rec) : Option (Nat × Nat) × List Issue × List Rec :=
  match parseBatchDates df with
  | some dfp =>
    ((((dfp.map dateKey).min?).bind
        (fun lo => ((dfp.map dateKey).max?).map (fun hi => (lo, hi)))),
     ([] : List Issue), dfp)
  | none => (none, [Issue.dateError], df)

/-- The `missing_data` report entries: per column, count and percentage
of missing values, for columns with at least one. -/
def missingEntries (df2 : List Rec) : List (String × Nat × ℚ) :=
  columns.filterMap (fun c =>
    if nullCount c df2 > 0 then
      some (c, nullCount c df2, ((nullCount c df2 : ℚ) / df2.length) * 100)
    else none)

/-- The `data_issues` entries appended by the missing-value loop: a
column is flagged when it has missing values and the percentage exceeds
10. -/
def missingIssues (df2 : List Rec) : List Issue :=
  columns.filterMap (fun c =>
    if nullCount c df2 > 0 ∧ ((nullCount c df2 : ℚ) / df2.length) * 100 > 10
    then some (Issue.missingData c (((nullCount c df2 : ℚ) / df2.length) * 100))
    else none)

/-- The `data_issues` entries appended by the temperature-range loop:
a temperature column is flagged when some non-null value falls below
-50 or above 60. -/
def tempIssues (df2 : List Rec) : List Issue :=
  temp_cols.filterMap (fun c =>
    if ¬ (tempValues c df2).isEmpty ∧
        ((tempValues c df2).any (· < -50) ∨ (tempValues c df2).any (· > 60))
    then some (Issue.tempRange c)
    else none)

/-- Model of `DataUtils.validate_data_quality` (utils.py). Returns the
report and
the post-call state of the argument frame, whose `date` column the
function reassigns in place when the conversion succeeds. Percentages
are exact rationals. -/
def validate_data_quality (df : List Rec) (location_name : String) :
    QualityReport × List Rec :=
  if df.isEmpty then
    ({ location := "", total_records := 0, date_range := none,
       missing_data := [], data_issues := [], status := .error,
       message := some "DataFrame vacío" }, df)
  else
    let S := dateStep df
    let issues := S.2.1 ++ missingIssues S.2.2 ++ tempIssues S.2.2
    ({ location := location_name, total_records := df.length,
       date_range := S.1, missing_data := missingEntries S.2.2,
       data_issues := issues,
       status := if issues.isEmpty then .ok else .warning,
       message := none }, S.2.2)

/-! ## Persistence writer (`DataUtils.save_to_json`, utils.py) -/

/-- The files of the destination filesystem: path to byte size. -/
structure FileSystem where
  files : List (String × Nat)
deriving DecidableEq

/-- Size of the file at `p`, if it exists. -/
def fileSize (fs : FileSystem) (p : String) : Option Nat :=
  (fs.files.find? (fun e => e.1 = p)).map (fun e => e.2)

/-- Whether a file exists at `p`. -/
def fileExists (fs : FileSystem) (p : String) : Bool :=
  (fileSize fs p).isSome

/-- Writing a file of `n` bytes at `p` (replacing any previous file). -/
def setFile (fs : FileSystem) (p : String) (n : Nat) : FileSystem :=
  ⟨(p, n) :: fs.files.filter (fun e => ¬ e.1 = p)⟩

/-- Outcome of the filesystem calls made by one `save_to_json` run:
the `mkdir` may raise, `to_json` may raise `PermissionError` or any
other exception, or the write completes leaving `n` bytes on disk
(`n = 0` models silent truncation, e.g. disk-full). -/
inductive WriteOutcome
  | mkdirFail
  | permError
  | ioError
  | writes (n : Nat)
deriving DecidableEq

/-- Model of `DataUtils.save_to_json` (utils.py): mkdir parents, refuse
empty
frames, write, then re-stat the destination and require non-zero size;
every exception is caught and turned into `False`. -/
def save_to_json (fs : FileSystem) (df : List Rec) (path : String)
    (oc : WriteOutcome) : FileSystem × Bool :=
  match oc with
  | .mkdirFail => (fs, false)
  | .permError => if df.isEmpty then (fs, false) else (fs, false)
  | .ioError => if df.isEmpty then (fs, false) else (fs, false)
  | .writes n =>
    if df.isEmpty then (fs, false)
    else
      let fs2 := setFile fs path n
      match fileSize fs2 path with
      | some m => if 0 < m then (fs2, true) else (fs2, false)
      | none => (fs2, false)

/-! ## Batch loader (`insert_weather_data`, database/loader/load_data.py) -/

/-- The location registry mapping of the loader. -/
def LOCATIONS : List (String × Nat) :=
  [("iowa_center", 1), ("illinois_center", 2)]

/-- One record of a loaded JSONL file (`record.get(...)` yields `none`
for absent fields). -/
structure JRec where
  location : String
  date : String
  weather_code : Option ℚ
  temperature_2m_max : Option ℚ
  temperature_2m_min : Option ℚ
  daylight_duration : Option ℚ
  shortwave_radiation_sum : Option ℚ
  precipitation_sum : Option ℚ
  et0_fao_evapotranspiration : Option ℚ
  soil_moisture_0_to_100cm_mean : Option ℚ
  vapour_pressure_deficit_max : Option ℚ
deriving DecidableEq

/-- One committed row of the `weather_data` table. -/
structure Row where
  location_id : Nat
  date : String
  data_type : String
  weather_code : Option ℚ
  temperature_2m_max : Option ℚ
  temperature_2m_min : Option ℚ
  daylight_duration : Option ℚ
  shortwave_radiation_sum : Option ℚ
  precipitation_sum : Option ℚ
  et0_fao_evapotranspiration : Option ℚ
  soil_moisture_0_to_100cm_mean : Option ℚ
  vapour_pressure_deficit_max : Option ℚ
deriving DecidableEq

/-- The natural key of a `weather_data` row. -/
def natKey (r : Row) : Nat × String × String :=
  (r.location_id, r.date, r.data_type)

/-- Model of `LOCATIONS.get(record['location'])`. -/
def lookupLocation (name : String) : Option Nat :=
  (LOCATIONS.find? (fun e => e.1 = name)).map (fun e => e.2)

/-- Building one insert tuple: a record whose location is unknown is
skipped (logged in the source). -/
def toRow (data_type : String) (r : JRec) : Option Row :=
  (lookupLocation r.location).map (fun lid =>
    { location_id := lid, date := r.date, data_type := data_type,
      weather_code := r.weather_code,
      temperature_2m_max := r.temperature_2m_max,
      temperature_2m_min := r.temperature_2m_min,
      daylight_duration := r.daylight_duration,
      shortwave_radiation_sum := r.shortwave_radiation_sum,
      precipitation_sum := r.precipitation_sum,
      et0_fao_evapotranspiration := r.et0_fao_evapotranspiration,
      soil_moisture_0_to_100cm_mean := r.soil_moisture_0_to_100cm_mean,
      vapour_pressure_deficit_max := r.vapour_pressure_deficit_max })

/-- One row's `INSERT ... ON CONFLICT (location_id, date, data_type)
DO NOTHING` against the store. -/
def insertRow (db : List Row) (r : Row) : List Row :=
  if db.any (fun q => natKey q = natKey r) then db else db ++ [r]

/-- Model of `insert_weather_data` (load_data.py): filter the records
through
the registry, batch-insert them with conflict-ignore, commit. The
second component is the Python return value — the function returns
`None` on every path. -/
def insert_weather_data (db : List Row) (records : List JRec)
    (data_type : String) : List Row × Option Nat :=
  if records.isEmpty then (db, none)
  else
    let insert_data := records.filterMap (toRow data_type)
    (insert_data.foldl insertRow db, none)

/-! ## Auxiliary definitions for the proofs and their concrete witnesses -/

/-- The deduplication core of the merge: stable-sort on (date,
location) then keep the last row of each duplicate group. -/
def mergeCore (l : List Rec) : List Rec :=
  dropDupKeepLast (List.insertionSort dlLe l)

/-- Strict version of the (date, location) row order, used to identify
sorted duplicate-free lists. -/
def dlLt (a b : Rec) : Prop := mergeKey a ≠ mergeKey b ∧ dlLe a b

/-- A concrete record for witnesses. -/
def sampleRec (d : DateCell) (loc : String) (tmax : Option ℚ) : Rec :=
  { date := d, weather_code := some 1, temperature_2m_max := tmax,
    temperature_2m_min := some 8, daylight_duration := some 2,
    precipitation_sum := some 0, shortwave_radiation_sum := some 3,
    et0_fao_evapotranspiration := some 4,
    soil_moisture_0_to_100cm_mean := some 5,
    vapour_pressure_deficit_max := some 6, location := loc }

/-- Concrete historical batch for witnesses (raw ISO dates, unsorted,
overlapping the forecast batch on 2025-01-02). -/
def wH : List Rec :=
  [sampleRec (.str "2025-01-02") "loc" (some 1),
   sampleRec (.str "2025-01-01") "loc" (some 2)]

/-- Concrete forecast batch for witnesses. -/
def wF : List Rec := [sampleRec (.str "2025-01-02") "loc" (some 99)]

/-- The batch `wH` after date conversion (2025-01-01 has ordinal
1036833). -/
def wH2 : List Rec :=
  [sampleRec (.dt 1036834) "loc" (some 1),
   sampleRec (.dt 1036833) "loc" (some 2)]

/-- The batch `wF` after date conversion. -/
def wF2 : List Rec := [sampleRec (.dt 1036834) "loc" (some 99)]

/-- The merge of `wH` and `wF`: sorted, deduplicated, forecast record
kept on the colliding date. -/
def wM : List Rec :=
  [sampleRec (.dt 1036833) "loc" (some 2),
   sampleRec (.dt 1036834) "loc" (some 99)]

/-- A concrete loader record for witnesses. -/
def sampleJRec (loc d : String) : JRec :=
  { location := loc, date := d, weather_code := some 1,
    temperature_2m_max := some 10, temperature_2m_min := some 2,
    daylight_duration := some 3, shortwave_radiation_sum := some 4,
    precipitation_sum := some 0, et0_fao_evapotranspiration := some 5,
    soil_moisture_0_to_100cm_mean := none,
    vapour_pressure_deficit_max := some 6 }

/-! ## Order facts -/

lemma charListLe_refl : ∀ l : List Char, charListLe l l = true
  | [] => rfl
  | a :: as => by
    simp only [charListLe, if_neg (lt_irrefl a)]
    exact charListLe_refl as

lemma charListLe_total : ∀ l m : List Char,
    charListLe l m = true ∨ charListLe m l = true
  | [], _ => Or.inl rfl
  | _ :: _, [] => Or.inr rfl
  | a :: as, b :: bs => by
    rcases lt_trichotomy a b with h | h | h
    · exact Or.inl (by simp [charListLe, if_pos h])
    · subst h
      simpa only [charListLe, if_neg (lt_irrefl a)] using charListLe_total as bs
    · exact Or.inr (by simp [charListLe, if_pos h])

lemma charListLe_trans : ∀ l m n : List Char,
    charListLe l m = true → charListLe m n = true → charListLe l n = true
  | [], _, _, _, _ => rfl
  | _ :: _, [], _, h1, _ => by simp [charListLe] at h1
  | _ :: _, _ :: _, [], _, h2 => by simp [charListLe] at h2
  | a :: as, b :: bs, c :: cs, h1, h2 => by
    rcases lt_trichotomy a b with hab | hab | hab
    · rcases lt_trichotomy b c with hbc | hbc | hbc
      · simp [charListLe, if_pos (hab.trans hbc)]
      · subst hbc; simp [charListLe, if_pos hab]
      · simp [charListLe, if_neg (lt_asymm hbc), if_pos hbc] at h2
    · subst hab
      simp only [charListLe, if_neg (lt_irrefl a)] at h1
      rcases lt_trichotomy a c with hac | hac | hac
      · simp [charListLe, if_pos hac]
      · subst hac
        simp only [charListLe, if_neg (lt_irrefl a)] at h2 ⊢
        exact charListLe_trans as bs cs h1 h2
      · simp [charListLe, if_neg (lt_asymm hac), if_pos hac] at h2
    · simp [charListLe, if_neg (lt_asymm hab), if_pos hab] at h1

lemma charListLe_antisymm : ∀ l m : List Char,
    charListLe l m = true → charListLe m l = true → l = m
  | [], [], _, _ => rfl
  | [], _ :: _, _, h2 => by simp [charListLe] at h2
  | _ :: _, [], h1, _ => by simp [charListLe] at h1
  | a :: as, b :: bs, h1, h2 => by
    rcases lt_trichotomy a b with hab | hab | hab
    · simp [charListLe, if_neg (lt_asymm hab), if_pos hab] at h2
    · subst hab
      simp only [charListLe, if_neg (lt_irrefl a)] at h1 h2
      rw [charListLe_antisymm as bs h1 h2]
    · simp [charListLe, if_neg (lt_asymm hab), if_pos hab] at h1

lemma locLe_refl (s : String) : locLe s s := charListLe_refl s.data

lemma locLe_total (s t : String) : locLe s t ∨ locLe t s :=
  charListLe_total s.data t.data

lemma locLe_trans {s t u : String} (h1 : locLe s t) (h2 : locLe t u) :
    locLe s u :=
  charListLe_trans s.data t.data u.data h1 h2

lemma locLe_antisymm {s t : String} (h1 : locLe s t) (h2 : locLe t s) :
    s = t := by
  cases s; cases t
  exact congrArg String.mk (charListLe_antisymm _ _ h1 h2)

instance : IsTotal Rec dlLe where
  total a b := by
    unfold dlLe
    rcases lt_trichotomy (dateKey a) (dateKey b) with h | h | h
    · exact Or.inl (Or.inl h)
    · rcases locLe_total a.location b.location with h2 | h2
      · exact Or.inl (Or.inr ⟨h, h2⟩)
      · exact Or.inr (Or.inr ⟨h.symm, h2⟩)
    · exact Or.inr (Or.inl h)

instance : IsTrans Rec dlLe where
  trans a b c hab hbc := by
    unfold dlLe at *
    rcases hab with h1 | ⟨h1, h1'⟩
    · rcases hbc with h2 | ⟨h2, _⟩
      · exact Or.inl (h1.trans h2)
      · exact Or.inl (h2 ▸ h1)
    · rcases hbc with h2 | ⟨h2, h2'⟩
      · exact Or.inl (h1 ▸ h2)
      · exact Or.inr ⟨h1.trans h2, locLe_trans h1' h2'⟩

instance : IsTotal Rec dLe where
  total _ _ := Nat.le_total _ _

instance : IsTrans Rec dLe where
  trans _ _ _ hab hbc := Nat.le_trans hab hbc

lemma dlLe_of_mergeKey_eq {a b : Rec} (h : mergeKey a = mergeKey b) :
    dlLe a b := by
  have h1 : dateKey a = dateKey b := congrArg Prod.fst h
  have h2 : a.location = b.location := congrArg Prod.snd h
  exact Or.inr ⟨h1, h2 ▸ locLe_refl _⟩

lemma dLe_of_dlLe {a b : Rec} (h : dlLe a b) : dLe a b := by
  rcases h with h | ⟨h, _⟩
  · exact Nat.le_of_lt h
  · exact Nat.le_of_eq h

lemma mergeKey_eq_of_dlLe_of_dlLe {a b : Rec} (h1 : dlLe a b)
    (h2 : dlLe b a) : mergeKey a = mergeKey b := by
  rcases h1 with h1 | ⟨h1, h1'⟩ <;> rcases h2 with h2 | ⟨h2, h2'⟩
  · exact absurd h1 (Nat.lt_asymm h2)
  · exact absurd h1 (by rw [h2]; exact Nat.lt_irrefl _)
  · exact absurd h2 (by rw [h1]; exact Nat.lt_irrefl _)
  · unfold mergeKey
    rw [h1, locLe_antisymm h1' h2']

/-! ## Facts about the keep-last deduplication -/

lemma dropDupKeepLast_sublist :
    ∀ l : List Rec, List.Sublist (dropDupKeepLast l) l
  | [] => List.Sublist.refl _
  | a :: t => by
    unfold dropDupKeepLast
    split
    · exact (dropDupKeepLast_sublist t).cons a
    · exact (dropDupKeepLast_sublist t).cons₂ a

lemma dropDupKeepLast_ne_nil : ∀ l : List Rec, l ≠ [] → dropDupKeepLast l ≠ []
  | a :: t, _ => by
    unfold dropDupKeepLast
    split
    case isTrue h =>
      have ht : t ≠ [] := by
        intro he
        subst he
        simp at h
      exact dropDupKeepLast_ne_nil t ht
    case isFalse h => simp

lemma mem_map_mergeKey_dropDupKeepLast : ∀ (l : List Rec) (k : Nat × String),
    (k ∈ (dropDupKeepLast l).map mergeKey ↔ k ∈ l.map mergeKey)
  | [], _ => Iff.rfl
  | a :: t, k => by
    unfold dropDupKeepLast
    split
    case isTrue h =>
      rw [mem_map_mergeKey_dropDupKeepLast t k]
      simp only [List.map_cons, List.mem_cons]
      constructor
      · exact Or.inr
      · rintro (rfl | hk)
        · simp only [List.any_eq_true, decide_eq_true_eq] at h
          obtain ⟨b, hb, hbe⟩ := h
          exact List.mem_map.mpr ⟨b, hb, hbe⟩
        · exact hk
    case isFalse h =>
      simp only [List.map_cons, List.mem_cons,
        mem_map_mergeKey_dropDupKeepLast t k]

lemma nodup_map_mergeKey_dropDupKeepLast : ∀ l : List Rec,
    ((dropDupKeepLast l).map mergeKey).Nodup
  | [] => List.nodup_nil
  | a :: t => by
    unfold dropDupKeepLast
    split
    case isTrue _ => exact nodup_map_mergeKey_dropDupKeepLast t
    case isFalse h =>
      simp only [List.map_cons, List.nodup_cons]
      refine ⟨?_, nodup_map_mergeKey_dropDupKeepLast t⟩
      intro hmem
      rw [mem_map_mergeKey_dropDupKeepLast t _] at hmem
      obtain ⟨b, hb, hbe⟩ := List.mem_map.mp hmem
      simp only [List.any_eq_true, decide_eq_true_eq, not_exists] at h
      exact absurd hbe (by intro he; exact (h b) ⟨hb, he⟩)

lemma exists_split_of_mem_dropDupKeepLast : ∀ {l : List Rec} {r : Rec},
    r ∈ dropDupKeepLast l →
    ∃ l₁ l₂, l = l₁ ++ r :: l₂ ∧ ∀ b ∈ l₂, mergeKey b ≠ mergeKey r := by
  intro l
  induction l with
  | nil => intro r hr; simp [dropDupKeepLast] at hr
  | cons a t ih =>
    intro r hr
    unfold dropDupKeepLast at hr
    split at hr
    case isTrue h =>
      obtain ⟨l₁, l₂, he, hno⟩ := ih hr
      exact ⟨a :: l₁, l₂, by rw [he]; rfl, hno⟩
    case isFalse h =>
      rcases List.mem_cons.mp hr with rfl | hr2
      · refine ⟨[], t, rfl, ?_⟩
        intro b hb he
        simp only [List.any_eq_true, decide_eq_true_eq, not_exists] at h
        exact (h b) ⟨hb, he⟩
      · obtain ⟨l₁, l₂, he, hno⟩ := ih hr2
        exact ⟨a :: l₁, l₂, by rw [he]; rfl, hno⟩

/-! ## Stability of the lexicographic sort on the deduplication key -/

lemma filter_orderedInsert (k : Nat × String) (a : Rec) :
    ∀ s : List Rec,
      (List.orderedInsert dlLe a s).filter (fun r => decide (mergeKey r = k)) =
        if mergeKey a = k then
          a :: s.filter (fun r => decide (mergeKey r = k))
        else s.filter (fun r => decide (mergeKey r = k))
  | [] => by
    by_cases hak : mergeKey a = k <;>
      simp [List.orderedInsert, List.filter_cons, hak]
  | b :: s => by
    simp only [List.orderedInsert]
    split
    case isTrue hab =>
      by_cases hak : mergeKey a = k <;> simp [List.filter_cons, hak]
    case isFalse hab =>
      by_cases hbk : mergeKey b = k
      · have hak : ¬ mergeKey a = k := by
          intro hak
          exact hab (dlLe_of_mergeKey_eq (hak.trans hbk.symm))
        simp [List.filter_cons, hbk, hak, filter_orderedInsert k a s]
      · by_cases hak : mergeKey a = k <;>
          simp [List.filter_cons, hbk, hak, filter_orderedInsert k a s]

lemma filter_insertionSort (k : Nat × String) : ∀ l : List Rec,
    (List.insertionSort dlLe l).filter (fun r => decide (mergeKey r = k)) =
      l.filter (fun r => decide (mergeKey r = k))
  | [] => rfl
  | a :: l => by
    simp only [List.insertionSort]
    rw [filter_orderedInsert]
    by_cases hak : mergeKey a = k <;>
      simp [List.filter_cons, hak, filter_insertionSort k l]

/-! ## Facts about the date-column conversion -/

lemma parseBatchDates_length : ∀ {l l' : List Rec},
    parseBatchDates l = some l' → l'.length = l.length := by
  intro l
  induction l with
  | nil =>
    intro l' h
    cases h
    rfl
  | cons a t ih =>
    intro l' h
    unfold parseBatchDates at h
    rcases hd : toDatetimeCell a.date with _ | d <;> rw [hd] at h
    · cases h
    rcases hp : parseBatchDates t with _ | t2 <;> rw [hp] at h
    · cases h
    cases h
    simp [ih hp]

lemma parseBatchDates_ne_nil {l l' : List Rec}
    (h : parseBatchDates l = some l') (hl : l ≠ []) : l' ≠ [] := by
  intro he
  subst he
  have := parseBatchDates_length h
  simp only [List.length_nil] at this
  exact hl (List.length_eq_zero.mp this.symm)

lemma parseBatchDates_parsed : ∀ {l l' : List Rec},
    parseBatchDates l = some l' →
    ∀ r ∈ l', ∃ d, r.date = DateCell.dt d := by
  intro l
  induction l with
  | nil =>
    intro l' h r hr
    cases h
    simp at hr
  | cons a t ih =>
    intro l' h r hr
    unfold parseBatchDates at h
    rcases hd : toDatetimeCell a.date with _ | d <;> rw [hd] at h
    · cases h
    rcases hp : parseBatchDates t with _ | t2 <;> rw [hp] at h
    · cases h
    cases h
    rcases List.mem_cons.mp hr with rfl | hr2
    · exact ⟨d, rfl⟩
    · exact ih hp r hr2

lemma parseBatchDates_of_parsed : ∀ {l : List Rec},
    (∀ r ∈ l, ∃ d, r.date = DateCell.dt d) → parseBatchDates l = some l := by
  intro l
  induction l with
  | nil => intro _; rfl
  | cons a t ih =>
    intro h
    obtain ⟨d, hd⟩ := h a (List.mem_cons_self a t)
    have ht := ih (fun r hr => h r (List.mem_cons_of_mem a hr))
    unfold parseBatchDates
    rw [ht, hd]
    simp only [toDatetimeCell]
    congr 2
    cases a
    simp_all

/-! ## Facts about the merge core -/

instance : IsAntisymm Rec dlLt where
  antisymm _ _ h1 h2 :=
    absurd (mergeKey_eq_of_dlLe_of_dlLe h1.2 h2.2) h1.1

lemma sorted_dlLe_mergeCore (l : List Rec) :
    List.Sorted dlLe (mergeCore l) :=
  List.Pairwise.sublist (dropDupKeepLast_sublist _)
    (List.sorted_insertionSort dlLe l)

lemma sorted_dLe_of_sorted_dlLe {l : List Rec}
    (h : List.Sorted dlLe l) : List.Sorted dLe l :=
  h.imp dLe_of_dlLe

lemma nodup_map_mergeKey_mergeCore (l : List Rec) :
    ((mergeCore l).map mergeKey).Nodup :=
  nodup_map_mergeKey_dropDupKeepLast _

lemma mem_keys_mergeCore (l : List Rec) (k : Nat × String) :
    k ∈ (mergeCore l).map mergeKey ↔ k ∈ l.map mergeKey := by
  unfold mergeCore
  rw [mem_map_mergeKey_dropDupKeepLast]
  exact ((List.perm_insertionSort dlLe l).map mergeKey).mem_iff

lemma mem_of_mem_mergeCore {l : List Rec} {r : Rec}
    (h : r ∈ mergeCore l) : r ∈ l :=
  (List.perm_insertionSort dlLe l).subset
    ((dropDupKeepLast_sublist _).subset h)

lemma mergeCore_ne_nil {l : List Rec} (h : l ≠ []) : mergeCore l ≠ [] := by
  apply dropDupKeepLast_ne_nil
  intro he
  exact h (List.eq_nil_of_length_eq_zero
    (by rw [← (List.perm_insertionSort dlLe l).length_eq, he, List.length_nil]))

lemma insertionSort_dLe_mergeCore (l : List Rec) :
    List.insertionSort dLe (mergeCore l) = mergeCore l :=
  (sorted_dLe_of_sorted_dlLe (sorted_dlLe_mergeCore l)).insertionSort_eq

/-- The kept representative of a key that occurs in the right batch
comes from the right batch: keep-last over the stable sort resolves
duplicate keys in favour of the later-concatenated batch. -/
lemma mem_right_of_mem_mergeCore {X Y : List Rec} {r : Rec}
    (hr : r ∈ mergeCore (X ++ Y)) (hk : mergeKey r ∈ Y.map mergeKey) :
    r ∈ Y := by
  obtain ⟨l₁, l₂, hsplit, hno⟩ := exists_split_of_mem_dropDupKeepLast hr
  have h1 : (List.insertionSort dlLe (X ++ Y)).filter
      (fun b => decide (mergeKey b = mergeKey r)) =
      (X ++ Y).filter (fun b => decide (mergeKey b = mergeKey r)) :=
    filter_insertionSort _ _
  rw [hsplit] at h1
  have h2 : l₂.filter (fun b => decide (mergeKey b = mergeKey r)) = [] := by
    rw [List.filter_eq_nil_iff]
    intro b hb
    simp only [decide_eq_true_eq]
    exact hno b hb
  have h3 : (l₁ ++ r :: l₂).filter
      (fun b => decide (mergeKey b = mergeKey r)) =
      l₁.filter (fun b => decide (mergeKey b = mergeKey r)) ++ [r] := by
    rw [List.filter_append, List.filter_cons]
    simp [h2]
  rw [h3, List.filter_append] at h1
  have h4 : Y.filter (fun b => decide (mergeKey b = mergeKey r)) ≠ [] := by
    obtain ⟨y, hy, hye⟩ := List.mem_map.mp hk
    intro hnil
    have hyf : y ∈ Y.filter (fun b => decide (mergeKey b = mergeKey r)) :=
      List.mem_filter.mpr ⟨hy, by simp [hye]⟩
    rw [hnil] at hyf
    simp at hyf
  have h5 : (l₁.filter (fun b => decide (mergeKey b = mergeKey r)) ++
      [r]).getLast? = some r := List.getLast?_concat _
  rw [h1, List.getLast?_append_of_ne_nil _ h4] at h5
  exact List.mem_of_mem_filter (List.mem_of_getLast?_eq_some h5)

/-- A sorted, duplicate-free batch concatenated with itself and passed
through the merge core comes back unchanged. -/
lemma mergeCore_self_append {M : List Rec}
    (hs : List.Sorted dlLe M) (hn : (M.map mergeKey).Nodup) :
    mergeCore (M ++ M) = M := by
  have hnM : M.Nodup := hn.of_map _
  have hdd_sorted : List.Sorted dlLe (mergeCore (M ++ M)) :=
    sorted_dlLe_mergeCore _
  have hdd_keys : ((mergeCore (M ++ M)).map mergeKey).Nodup :=
    nodup_map_mergeKey_mergeCore _
  have hddN : (mergeCore (M ++ M)).Nodup := hdd_keys.of_map _
  have hmem : ∀ x, x ∈ mergeCore (M ++ M) ↔ x ∈ M := by
    intro x
    constructor
    · intro hx
      have hx2 := mem_of_mem_mergeCore hx
      simpa using hx2
    · intro hx
      have hk : mergeKey x ∈ (mergeCore (M ++ M)).map mergeKey := by
        rw [mem_keys_mergeCore]
        exact List.mem_map.mpr ⟨x, by simp [hx], rfl⟩
      obtain ⟨y, hy, hye⟩ := List.mem_map.mp hk
      have hyM : y ∈ M := by
        have hy2 := mem_of_mem_mergeCore hy
        simpa using hy2
      have hxy : y = x := List.inj_on_of_nodup_map hn hyM hx hye
      exact hxy ▸ hy
  have hperm : List.Perm (mergeCore (M ++ M)) M :=
    (List.perm_ext_iff_of_nodup hddN hnM).mpr hmem
  have hsort1 : List.Sorted dlLt (mergeCore (M ++ M)) :=
    (List.pairwise_map.mp hdd_keys).and hdd_sorted
  have hsort2 : List.Sorted dlLt M :=
    (List.pairwise_map.mp hn).and hs
  exact List.eq_of_perm_of_sorted hperm hsort1 hsort2

/-- Unfolding `merge_datasets` on well-formed non-empty inputs. -/
lemma merge_datasets_eq {H F H2 F2 : List Rec} (hH : H ≠ []) (hF : F ≠ [])
    (pH : parseBatchDates H = some H2) (pF : parseBatchDates F = some F2) :
    merge_datasets H F =
      (some (List.insertionSort dLe (mergeCore (H2 ++ F2))), H2, F2) := by
  unfold merge_datasets
  rw [if_neg, pH, pF]
  · rfl
  · simp [List.isEmpty_iff, hH, hF]

/-- The merge result on well-formed non-empty inputs is the merge core
of the concatenation. -/
lemma merge_datasets_fst {H F H2 F2 : List Rec} (hH : H ≠ []) (hF : F ≠ [])
    (pH : parseBatchDates H = some H2) (pF : parseBatchDates F = some F2) :
    (merge_datasets H F).1 = some (mergeCore (H2 ++ F2)) := by
  rw [merge_datasets_eq hH hF pH pF, insertionSort_dLe_mergeCore]

/-! ## Claim theorems: record merger -/

/-- C1: for non-empty historical and forecast batches (with their date
columns converted to `H2` and `F2`), the merge has exactly one record
per (date, location) key — the keys are duplicate-free and are exactly
the keys of the concatenated input — and for a key present in both
batches the surviving record is a record of the forecast batch. -/
theorem merge_dedup_forecast_wins {H F H2 F2 M : List Rec}
    (hH : H ≠ []) (hF : F ≠ [])
    (pH : parseBatchDates H = some H2) (pF : parseBatchDates F = some F2)
    (hM : (merge_datasets H F).1 = some M) :
    ((M.map mergeKey).Nodup ∧
      ∀ k : Nat × String,
        (k ∈ M.map mergeKey ↔ k ∈ (H2 ++ F2).map mergeKey)) ∧
    (∀ r ∈ M, mergeKey r ∈ H2.map mergeKey → mergeKey r ∈ F2.map mergeKey →
      r ∈ F2) := by
  have hfst := merge_datasets_fst hH hF pH pF
  rw [hM, Option.some.injEq] at hfst
  subst hfst
  refine ⟨⟨nodup_map_mergeKey_mergeCore _, fun k => mem_keys_mergeCore _ _⟩, ?_⟩
  intro r hr _ hkF
  exact mem_right_of_mem_mergeCore hr hkF

/-- Witness for C1 at the concrete batches `wH`, `wF`. -/
theorem merge_dedup_forecast_wins_witness :
    parseBatchDates wH = some wH2 ∧
    (((wM.map mergeKey).Nodup ∧
      ∀ k : Nat × String,
        (k ∈ wM.map mergeKey ↔ k ∈ (wH2 ++ wF2).map mergeKey)) ∧
    (∀ r ∈ wM, mergeKey r ∈ wH2.map mergeKey →
      mergeKey r ∈ wF2.map mergeKey → r ∈ wF2)) :=
  ⟨by decide,
   @merge_dedup_forecast_wins wH wF wH2 wF2 wM (by decide) (by decide)
     (by decide) (by decide) (by decide)⟩

/-- C2: the merge result is sorted ascending by date, and re-merging it
with itself (as both arguments) returns the identical sequence. -/
theorem merge_sorted_and_idempotent {H F H2 F2 M : List Rec}
    (hH : H ≠ []) (hF : F ≠ [])
    (pH : parseBatchDates H = some H2) (pF : parseBatchDates F = some F2)
    (hM : (merge_datasets H F).1 = some M) :
    List.Sorted dLe M ∧ (merge_datasets M M).1 = some M := by
  have hfst := merge_datasets_fst hH hF pH pF
  rw [hM, Option.some.injEq] at hfst
  subst hfst
  constructor
  · exact sorted_dLe_of_sorted_dlLe (sorted_dlLe_mergeCore _)
  · have hH2 : H2 ≠ [] := parseBatchDates_ne_nil pH hH
    have hMne : mergeCore (H2 ++ F2) ≠ [] := by
      apply mergeCore_ne_nil
      intro he
      exact hH2 (List.append_eq_nil.mp he).1
    have hparsed : ∀ r ∈ mergeCore (H2 ++ F2), ∃ d, r.date = DateCell.dt d := by
      intro r hr
      rcases List.mem_append.mp (mem_of_mem_mergeCore hr) with h | h
      · exact parseBatchDates_parsed pH r h
      · exact parseBatchDates_parsed pF r h
    have pM : parseBatchDates (mergeCore (H2 ++ F2)) =
        some (mergeCore (H2 ++ F2)) := parseBatchDates_of_parsed hparsed
    rw [merge_datasets_fst hMne hMne pM pM,
      mergeCore_self_append (sorted_dlLe_mergeCore _)
        (nodup_map_mergeKey_mergeCore _)]

/-- Witness for C2 at the concrete batches `wH`, `wF`. -/
theorem merge_sorted_and_idempotent_witness :
    parseBatchDates wF = some wF2 ∧
    (List.Sorted dLe wM ∧ (merge_datasets wM wM).1 = some wM) :=
  ⟨by decide,
   @merge_sorted_and_idempotent wH wF wH2 wF2 wM (by decide) (by decide)
     (by decide) (by decide) (by decide)⟩

/-- C7: merging with an empty batch on either side returns `None`. -/
theorem merge_empty_input_returns_none (H F : List Rec) :
    (merge_datasets [] F).1 = none ∧ (merge_datasets H []).1 = none := by
  constructor <;> simp [merge_datasets]

/-- C10: validation and merge are not side-effect free on their inputs:
`validate` leaves the caller's batch with its date column reassigned to
the parsed datetimes, `merge` does the same to both of its arguments,
and this reassignment genuinely changes batches whose dates were raw
strings. -/
theorem validate_and_merge_mutate_date_columns
    {df H F df2 H2 F2 : List Rec} (name : String)
    (hdf : df ≠ []) (hH : H ≠ []) (hF : F ≠ [])
    (pdf : parseBatchDates df = some df2)
    (pH : parseBatchDates H = some H2) (pF : parseBatchDates F = some F2) :
    (validate_data_quality df name).2 = df2 ∧
    (merge_datasets H F).2 = (H2, F2) ∧
    ∃ b b2 : List Rec, b ≠ [] ∧ parseBatchDates b = some b2 ∧ b2 ≠ b := by
  refine ⟨?_, ?_, ?_⟩
  · unfold validate_data_quality
    rw [if_neg (by simp [List.isEmpty_iff, hdf])]
    show (dateStep df).2.2 = df2
    unfold dateStep
    rw [pdf]
  · rw [merge_datasets_eq hH hF pH pF]
  · exact ⟨[sampleRec (.str "2025-01-01") "x" (some 1)],
      [sampleRec (.dt 1036833) "x" (some 1)], by simp, by decide, by decide⟩

/-! ## Facts about the quality validator -/

lemma length_filter_parseBatchDates {p : Rec → Bool}
    (hp : ∀ (r : Rec) (x : DateCell), p { r with date := x } = p r) :
    ∀ {l l' : List Rec}, parseBatchDates l = some l' →
      (l'.filter p).length = (l.filter p).length := by
  intro l
  induction l with
  | nil =>
    intro l' h
    cases h
    rfl
  | cons a t ih =>
    intro l' h
    unfold parseBatchDates at h
    rcases hd : toDatetimeCell a.date with _ | d <;> rw [hd] at h
    · cases h
    rcases hpt : parseBatchDates t with _ | t2 <;> rw [hpt] at h
    · cases h
    cases h
    rw [List.filter_cons, List.filter_cons, hp a (.dt d)]
    split <;> simp [ih hpt]

lemma filterMap_parseBatchDates {f : Rec → Option ℚ}
    (hf : ∀ (r : Rec) (x : DateCell), f { r with date := x } = f r) :
    ∀ {l l' : List Rec}, parseBatchDates l = some l' →
      l'.filterMap f = l.filterMap f := by
  intro l
  induction l with
  | nil =>
    intro l' h
    cases h
    rfl
  | cons a t ih =>
    intro l' h
    unfold parseBatchDates at h
    rcases hd : toDatetimeCell a.date with _ | d <;> rw [hd] at h
    · cases h
    rcases hpt : parseBatchDates t with _ | t2 <;> rw [hpt] at h
    · cases h
    cases h
    rw [List.filterMap_cons, List.filterMap_cons, hf a (.dt d), ih hpt]

lemma nullCount_parseBatchDates {l l' : List Rec}
    (h : parseBatchDates l = some l') (c : String) :
    nullCount c l' = nullCount c l := by
  unfold nullCount
  refine length_filter_parseBatchDates ?_ h
  intro r x
  rfl

lemma tempValues_parseBatchDates {l l' : List Rec}
    (h : parseBatchDates l = some l') (c : String) :
    tempValues c l' = tempValues c l := by
  unfold tempValues
  split
  · refine filterMap_parseBatchDates ?_ h
    intro r x
    rfl
  split
  · refine filterMap_parseBatchDates ?_ h
    intro r x
    rfl
  · rfl

lemma nullCount_dateStep (df : List Rec) (c : String) :
    nullCount c (dateStep df).2.2 = nullCount c df := by
  unfold dateStep
  rcases h : parseBatchDates df with _ | dfp
  · rfl
  · exact nullCount_parseBatchDates h c

lemma tempValues_dateStep (df : List Rec) (c : String) :
    tempValues c (dateStep df).2.2 = tempValues c df := by
  unfold dateStep
  rcases h : parseBatchDates df with _ | dfp
  · rfl
  · exact tempValues_parseBatchDates h c

lemma length_dateStep (df : List Rec) :
    (dateStep df).2.2.length = df.length := by
  unfold dateStep
  rcases h : parseBatchDates df with _ | dfp
  · rfl
  · exact parseBatchDates_length h

lemma dateStep_issues_dateError (df : List Rec) :
    ∀ i ∈ (dateStep df).2.1, i = Issue.dateError := by
  unfold dateStep
  rcases h : parseBatchDates df with _ | dfp <;> simp

lemma dateStep_of_some {df df2 : List Rec}
    (h : parseBatchDates df = some df2) :
    (dateStep df).2.1 = [] ∧ (dateStep df).2.2 = df2 := by
  unfold dateStep
  rw [h]
  exact ⟨rfl, rfl⟩

lemma mem_missingIssues_iff (df2 : List Rec) (c : String) :
    (∃ pct, Issue.missingData c pct ∈ missingIssues df2) ↔
      (c ∈ columns ∧ ((nullCount c df2 : ℚ) / df2.length) * 100 > 10) := by
  unfold missingIssues
  constructor
  · rintro ⟨pct, hmem⟩
    obtain ⟨c', hc', hf⟩ := List.mem_filterMap.mp hmem
    split at hf
    case isTrue hcond =>
      simp only [Option.some.injEq, Issue.missingData.injEq] at hf
      obtain ⟨rfl, rfl⟩ := hf
      exact ⟨hc', hcond.2⟩
    case isFalse => cases hf
  · rintro ⟨hc, hpct⟩
    have hn0 : nullCount c df2 > 0 := by
      by_contra hn
      push_neg at hn
      have h0 : nullCount c df2 = 0 := by omega
      rw [h0] at hpct
      norm_num at hpct
    exact ⟨((nullCount c df2 : ℚ) / df2.length) * 100,
      List.mem_filterMap.mpr ⟨c, hc, if_pos ⟨hn0, hpct⟩⟩⟩

lemma mem_tempIssues_tempRange (df2 : List Rec) :
    ∀ i ∈ tempIssues df2, ∃ c, i = Issue.tempRange c := by
  unfold tempIssues
  intro i hi
  obtain ⟨c', _, hf⟩ := List.mem_filterMap.mp hi
  split at hf
  · cases hf
    exact ⟨c', rfl⟩
  · cases hf

/-- Unfolding of the validator on a non-empty batch. -/
lemma validate_nonempty_eq {df : List Rec} (hdf : df ≠ []) (name : String) :
    validate_data_quality df name =
      ({ location := name, total_records := df.length,
         date_range := (dateStep df).1,
         missing_data := missingEntries (dateStep df).2.2,
         data_issues := (dateStep df).2.1 ++
           missingIssues (dateStep df).2.2 ++ tempIssues (dateStep df).2.2,
         status := if ((dateStep df).2.1 ++
             missingIssues (dateStep df).2.2 ++
             tempIssues (dateStep df).2.2).isEmpty
           then .ok else .warning,
         message := none }, (dateStep df).2.2) := by
  unfold validate_data_quality
  rw [if_neg (by simp [List.isEmpty_iff, hdf])]

/-! ## Claim theorems: quality validator -/

/-- C3: validation of an empty batch returns the bare error report with
nothing computed; validation of a non-empty well-formed batch with no
missing values in any column and both temperature columns inside
[-50, 60] returns status `ok`. -/
theorem validate_empty_error_clean_ok (name : String) {df df2 : List Rec}
    (hdf : df ≠ []) (hdates : parseBatchDates df = some df2)
    (hmiss : ∀ c ∈ columns, nullCount c df = 0)
    (hmax : ∀ q ∈ tempValues "temperature_2m_max" df, -50 ≤ q ∧ q ≤ 60)
    (hmin : ∀ q ∈ tempValues "temperature_2m_min" df, -50 ≤ q ∧ q ≤ 60) :
    validate_data_quality [] name =
      ({ location := "", total_records := 0, date_range := none,
         missing_data := [], data_issues := [], status := .error,
         message := some "DataFrame vacío" }, []) ∧
    (validate_data_quality df name).1.status = VStatus.ok := by
  refine ⟨rfl, ?_⟩
  rw [validate_nonempty_eq hdf name]
  have hA : (dateStep df).2.1 = [] := (dateStep_of_some hdates).1
  have hB : missingIssues (dateStep df).2.2 = [] := by
    unfold missingIssues
    rw [List.filterMap_eq_nil_iff]
    intro c hc
    rw [if_neg]
    intro hcond
    rw [nullCount_dateStep df c, hmiss c hc] at hcond
    exact absurd hcond.1 (by omega)
  have hC : tempIssues (dateStep df).2.2 = [] := by
    unfold tempIssues
    rw [List.filterMap_eq_nil_iff]
    intro c hc
    rw [if_neg]
    intro hcond
    rcases hcond.2 with hany | hany <;>
      obtain ⟨q, hq, hqlt⟩ := List.any_eq_true.mp hany <;>
      rw [tempValues_dateStep df c] at hq <;>
      simp only [decide_eq_true_eq] at hqlt <;>
      simp only [temp_cols, List.mem_cons, List.not_mem_nil, or_false]
        at hc <;> rcases hc with rfl | rfl
    · exact absurd hqlt (by have := (hmax q hq).1; linarith)
    · exact absurd hqlt (by have := (hmin q hq).1; linarith)
    · exact absurd hqlt (by have := (hmax q hq).2; linarith)
    · exact absurd hqlt (by have := (hmin q hq).2; linarith)
  simp [hA, hB, hC]

/-- Witness for C3 at a concrete clean one-record batch. -/
theorem validate_empty_error_clean_ok_witness :
    parseBatchDates [sampleRec (.str "2025-01-01") "loc" (some 10)] =
      some [sampleRec (.dt 1036833) "loc" (some 10)] ∧
    (validate_data_quality [] "loc" =
      ({ location := "", total_records := 0, date_range := none,
         missing_data := [], data_issues := [], status := .error,
         message := some "DataFrame vacío" }, []) ∧
    (validate_data_quality [sampleRec (.str "2025-01-01") "loc" (some 10)]
        "loc").1.status = VStatus.ok) :=
  ⟨by decide,
   @validate_empty_error_clean_ok "loc"
     [sampleRec (.str "2025-01-01") "loc" (some 10)]
     [sampleRec (.dt 1036833) "loc" (some 10)]
     (by decide) (by decide) (by decide) (by decide) (by decide)⟩

/-- C8: for a non-empty batch, a missing-data issue naming column `c`
exists iff `c` is a column whose missing percentage strictly exceeds
10; and any such issue forces status `warning`. -/
theorem validate_missing_flag_iff {df : List Rec} (name c : String)
    (hdf : df ≠ []) :
    ((∃ pct, Issue.missingData c pct ∈
        (validate_data_quality df name).1.data_issues) ↔
      (c ∈ columns ∧ ((nullCount c df : ℚ) / df.length) * 100 > 10)) ∧
    (∀ pct, Issue.missingData c pct ∈
        (validate_data_quality df name).1.data_issues →
      (validate_data_quality df name).1.status = VStatus.warning) := by
  rw [validate_nonempty_eq hdf name]
  constructor
  · rw [← nullCount_dateStep df c, ← length_dateStep df,
      ← mem_missingIssues_iff (dateStep df).2.2 c]
    constructor
    · rintro ⟨pct, hmem⟩
      refine ⟨pct, ?_⟩
      rcases List.mem_append.mp hmem with hmem2 | hmem2
      · rcases List.mem_append.mp hmem2 with hmem3 | hmem3
        · exact absurd (dateStep_issues_dateError df _ hmem3) (by simp)
        · exact hmem3
      · obtain ⟨c', hc'⟩ := mem_tempIssues_tempRange _ _ hmem2
        cases hc'
    · rintro ⟨pct, hmem⟩
      exact ⟨pct, List.mem_append.mpr (Or.inl (List.mem_append.mpr
        (Or.inr hmem)))⟩
  · intro pct hmem
    have hne : (dateStep df).2.1 ++ missingIssues (dateStep df).2.2 ++
        tempIssues (dateStep df).2.2 ≠ [] := List.ne_nil_of_mem hmem
    show (if ((dateStep df).2.1 ++ missingIssues (dateStep df).2.2 ++
        tempIssues (dateStep df).2.2).isEmpty = true
      then VStatus.ok else VStatus.warning) = VStatus.warning
    rw [if_neg]
    simpa [List.isEmpty_iff] using hne

/-- Witness for C8 at a concrete batch of one record with a missing
soil-moisture value (1 of 1 missing, 100% > 10%). -/
theorem validate_missing_flag_iff_witness :
    ([sampleRec (.dt 1036833) "loc" (some 10)] : List Rec) ≠ [] ∧
    (((∃ pct, Issue.missingData "temperature_2m_max" pct ∈
        (validate_data_quality [sampleRec (.dt 1036833) "loc" none]
          "loc").1.data_issues) ↔
      ("temperature_2m_max" ∈ columns ∧
        ((nullCount "temperature_2m_max"
            [sampleRec (.dt 1036833) "loc" none] : ℚ) /
          ([sampleRec (.dt 1036833) "loc" none] : List Rec).length) * 100
            > 10)) ∧
    (∀ pct, Issue.missingData "temperature_2m_max" pct ∈
        (validate_data_quality [sampleRec (.dt 1036833) "loc" none]
          "loc").1.data_issues →
      (validate_data_quality [sampleRec (.dt 1036833) "loc" none]
          "loc").1.status = VStatus.warning)) :=
  ⟨by decide,
   validate_missing_flag_iff "loc" "temperature_2m_max" (by decide)⟩

/-- Witness for C10 at the concrete batches `wH`, `wF` (also used as the
validated batch). -/
theorem validate_and_merge_mutate_date_columns_witness :
    wH ≠ [] ∧
    ((validate_data_quality wH "loc").2 = wH2 ∧
    (merge_datasets wH wF).2 = (wH2, wF2) ∧
    ∃ b b2 : List Rec, b ≠ [] ∧ parseBatchDates b = some b2 ∧ b2 ≠ b) :=
  ⟨by decide,
   @validate_and_merge_mutate_date_columns wH wH wF wH2 wH2 wF2 "loc"
     (by decide) (by decide) (by decide) (by decide) (by decide) (by decide)⟩

/-! ## Claim theorems: persistence writer -/

lemma fileSize_setFile (fs : FileSystem) (p : String) (n : Nat) :
    fileSize (setFile fs p n) p = some n := by
  unfold fileSize setFile
  rw [List.find?_cons_of_pos _ (by simp)]
  rfl

/-- C5: writing an empty batch returns `False` and leaves the files of
the destination filesystem untouched (no file is created at the
destination), whatever the I/O outcome. -/
theorem save_empty_returns_false_no_file (fs : FileSystem) (path : String)
    (oc : WriteOutcome) :
    (save_to_json fs [] path oc).2 = false ∧
    (save_to_json fs [] path oc).1 = fs := by
  cases oc <;> simp [save_to_json]

/-- C6: the writer converts every raised I/O failure (mkdir failure,
permission error, any other exception) into a `False` return instead of
propagating it, and a write that leaves a zero-byte destination is also
reported as `False` even though the write call itself raised nothing. -/
theorem save_failures_and_zero_bytes_false (fs : FileSystem)
    (df : List Rec) (path : String) :
    (save_to_json fs df path .mkdirFail).2 = false ∧
    (save_to_json fs df path .permError).2 = false ∧
    (save_to_json fs df path .ioError).2 = false ∧
    (save_to_json fs df path (.writes 0)).2 = false := by
  refine ⟨rfl, ?_, ?_, ?_⟩ <;> by_cases h : df.isEmpty <;>
    simp [save_to_json, h, fileSize_setFile]

/-! ## Facts about the batch loader -/

lemma mem_keys_insertRow {db : List Row} {k : Nat × String × String}
    (r : Row) (h : k ∈ db.map natKey) :
    k ∈ (insertRow db r).map natKey := by
  unfold insertRow
  split
  · exact h
  · rw [List.map_append, List.mem_append]
    exact Or.inl h

lemma self_key_mem_insertRow (db : List Row) (r : Row) :
    natKey r ∈ (insertRow db r).map natKey := by
  unfold insertRow
  split
  case isTrue h =>
    simp only [List.any_eq_true, decide_eq_true_eq] at h
    obtain ⟨q, hq, he⟩ := h
    exact List.mem_map.mpr ⟨q, hq, he⟩
  case isFalse h => simp

lemma insertRow_of_key_mem {db : List Row} {r : Row}
    (h : natKey r ∈ db.map natKey) : insertRow db r = db := by
  unfold insertRow
  rw [if_pos]
  simp only [List.any_eq_true, decide_eq_true_eq]
  obtain ⟨q, hq, he⟩ := List.mem_map.mp h
  exact ⟨q, hq, he⟩

lemma mem_keys_foldl_insertRow {l : List Row} {k : Nat × String × String} :
    ∀ {db : List Row}, k ∈ db.map natKey →
      k ∈ (l.foldl insertRow db).map natKey := by
  induction l with
  | nil => intro db h; exact h
  | cons a t ih =>
    intro db h
    exact ih (mem_keys_insertRow a h)

lemma self_keys_mem_foldl_insertRow : ∀ (l : List Row) (db : List Row),
    ∀ r ∈ l, natKey r ∈ (l.foldl insertRow db).map natKey := by
  intro l
  induction l with
  | nil => intro db r hr; cases hr
  | cons a t ih =>
    intro db r hr
    rcases List.mem_cons.mp hr with rfl | hr2
    · show natKey r ∈ (List.foldl insertRow (insertRow db r) t).map natKey
      exact mem_keys_foldl_insertRow (self_key_mem_insertRow db r)
    · show natKey r ∈ (List.foldl insertRow (insertRow db a) t).map natKey
      exact ih (insertRow db a) r hr2

lemma foldl_insertRow_eq_of_keys : ∀ {l db : List Row},
    (∀ r ∈ l, natKey r ∈ db.map natKey) → l.foldl insertRow db = db := by
  intro l
  induction l with
  | nil => intro db _; rfl
  | cons a t ih =>
    intro db h
    have ha : insertRow db a = db :=
      insertRow_of_key_mem (h a (List.mem_cons_self a t))
    show List.foldl insertRow (insertRow db a) t = db
    rw [ha]
    exact ih (fun r hr => h r (List.mem_cons_of_mem a hr))

lemma nodup_keys_insertRow {db : List Row} (r : Row)
    (h : (db.map natKey).Nodup) : ((insertRow db r).map natKey).Nodup := by
  unfold insertRow
  split
  case isTrue _ => exact h
  case isFalse hna =>
    rw [List.map_append, List.nodup_append]
    refine ⟨h, List.nodup_singleton _, ?_⟩
    intro k hk hk2
    simp only [List.map_cons, List.map_nil, List.mem_singleton] at hk2
    subst hk2
    obtain ⟨q, hq, he⟩ := List.mem_map.mp hk
    simp only [List.any_eq_true, decide_eq_true_eq, not_exists] at hna
    exact (hna q) ⟨hq, he⟩

lemma nodup_keys_foldl_insertRow : ∀ (l : List Row) {db : List Row},
    (db.map natKey).Nodup → ((l.foldl insertRow db).map natKey).Nodup := by
  intro l
  induction l with
  | nil => intro db h; exact h
  | cons a t ih =>
    intro db h
    exact ih (nodup_keys_insertRow a h)

lemma filter_key_insertRow {db : List Row} {k : Nat × String × String}
    (r : Row) (h : k ∈ db.map natKey) :
    (insertRow db r).filter (fun q => decide (natKey q = k)) =
      db.filter (fun q => decide (natKey q = k)) := by
  unfold insertRow
  split
  case isTrue _ => rfl
  case isFalse hna =>
    rw [List.filter_append]
    have hr : natKey r ≠ k := by
      intro he
      subst he
      obtain ⟨q, hq, hqe⟩ := List.mem_map.mp h
      simp only [List.any_eq_true, decide_eq_true_eq, not_exists] at hna
      exact (hna q) ⟨hq, hqe⟩
    simp [List.filter_cons, hr]

lemma filter_key_foldl_insertRow : ∀ (l : List Row) {db : List Row}
    {k : Nat × String × String}, k ∈ db.map natKey →
    (l.foldl insertRow db).filter (fun q => decide (natKey q = k)) =
      db.filter (fun q => decide (natKey q = k)) := by
  intro l
  induction l with
  | nil => intro db k _; rfl
  | cons a t ih =>
    intro db k h
    show (List.foldl insertRow (insertRow db a) t).filter _ = _
    rw [ih (mem_keys_insertRow a h), filter_key_insertRow a h]

/-- The store returned by `insert_weather_data`. -/
lemma insert_weather_data_fst (db : List Row) (records : List JRec)
    (dt : String) :
    (insert_weather_data db records dt).1 =
      (records.filterMap (toRow dt)).foldl insertRow db := by
  unfold insert_weather_data
  split
  case isTrue h =>
    have he : records = [] := List.isEmpty_iff.mp h
    subst he
    rfl
  case isFalse => rfl

/-! ## Claim theorems: batch loader -/

/-- C4: the loader's conflict-ignore upsert makes reloading the same
records a strict no-op (the store after the second call is the store
after the first), preserves the at-most-one-row-per-natural-key
invariant, and leaves every pre-existing row of a present key
untouched. -/
theorem load_idempotent_upsert_invariant (db : List Row)
    (records : List JRec) (dt : String)
    (hinv : (db.map natKey).Nodup) :
    ((insert_weather_data (insert_weather_data db records dt).1
        records dt).1 = (insert_weather_data db records dt).1) ∧
    (((insert_weather_data db records dt).1.map natKey).Nodup) ∧
    (∀ k ∈ db.map natKey,
      (insert_weather_data db records dt).1.filter
          (fun q => decide (natKey q = k)) =
        db.filter (fun q => decide (natKey q = k))) := by
  simp only [insert_weather_data_fst]
  refine ⟨?_, nodup_keys_foldl_insertRow _ hinv, ?_⟩
  · apply foldl_insertRow_eq_of_keys
    intro r hr
    exact self_keys_mem_foldl_insertRow _ db r hr
  · intro k hk
    exact filter_key_foldl_insertRow _ hk

/-- Witness for C4: loading one Iowa record into the empty store. -/
theorem load_idempotent_upsert_invariant_witness :
    (([] : List Row).map natKey).Nodup ∧
    (((insert_weather_data
        (insert_weather_data [] [sampleJRec "iowa_center" "2025-01-01"]
          "historical").1
        [sampleJRec "iowa_center" "2025-01-01"] "historical").1 =
      (insert_weather_data [] [sampleJRec "iowa_center" "2025-01-01"]
        "historical").1) ∧
    (((insert_weather_data [] [sampleJRec "iowa_center" "2025-01-01"]
        "historical").1.map natKey).Nodup) ∧
    (∀ k ∈ ([] : List Row).map natKey,
      (insert_weather_data [] [sampleJRec "iowa_center" "2025-01-01"]
          "historical").1.filter (fun q => decide (natKey q = k)) =
        ([] : List Row).filter (fun q => decide (natKey q = k)))) :=
  ⟨by decide,
   load_idempotent_upsert_invariant []
     [sampleJRec "iowa_center" "2025-01-01"] "historical" (by decide)⟩

/-- C9 counterexample: at a concrete call that inserts one row, the
loader's Python return value is `None` — not the count of rows
affected (which is 1 here). -/
theorem load_return_value_counterexample :
    (insert_weather_data [] [sampleJRec "iowa_center" "2025-01-01"]
        "historical").2 = none ∧
    (insert_weather_data [] [sampleJRec "iowa_center" "2025-01-01"]
        "historical").1.length = 1 ∧
    ∀ n : Nat, (insert_weather_data []
        [sampleJRec "iowa_center" "2025-01-01"] "historical").2 ≠ some n := by
  refine ⟨by decide, by decide, ?_⟩
  intro n
  simp [insert_weather_data]

/-- C9 amended: `insert_weather_data` returns `None` on every path; the
number of prepared rows is logged, never returned. -/
theorem load_always_returns_none (db : List Row) (records : List JRec)
    (dt : String) : (insert_weather_data db records dt).2 = none := by
  unfold insert_weather_data
  split <;> rfl

end Weather
